import Mathlib

/-!
Shallow embedding of `src/scripts/csv_to_pointcloud.py` (Tritech Micron CSV to
LaserScan / PointCloud converter), and proofs checking the specification's
claims against it.

Modelling conventions:
* Python 2 floats (`self.range`, `min_distance`, `threshold`, timestamps,
  ROS times) are modelled as exact rationals `ℚ`; intensities (`int(...)`)
  as `ℤ`.
* Python 2 `/` on two ints is floor division: modelled by `Int.fdiv`.
  Python `%` with a positive modulus matches `Int.emod`.
* Python `int(x)` on a float truncates toward zero: modelled by `pyInt`.
* `list.pop(0)` is `List.tail` (the call sites guard it with `full()`, which
  on every reachable state implies a non-empty buffer).
* Python list assignment `l[i] = v` accepts negative indices (counting from
  the end) and raises `IndexError` otherwise: modelled by `pyListSet`, which
  returns `none` exactly when Python would raise.
* `Scan.to_laser_scan` mutates `self.time`; it is modelled as returning the
  message result together with the post-state.  Its result is
  `Except Unit (Option LaserScanMsg)`: `.ok none` is Python's `return None`,
  `.error ()` is an uncaught `IndexError` from the bucket-write loop.
* The trigonometric point geometry (`Point32`, `sonar_angle_to_rad` producing
  radians via `π/3200`) is real-valued and not referenced by any claim; the
  angular fields are kept in sonar heading units (`_units` suffix) and the
  per-bin `Point32` lists are omitted.  The point-cloud intensity channel,
  which the code builds from the slices' raw bin data, is modelled exactly.
* Unused pass-through record fields (`sof`, `node`, `status`, `gain`,
  `slope`, `ad_low`, `ad_span`) are parsed but never read by the
  aggregation/projection logic and are omitted from the model.
-/

/-- Python 2 `int(x)` on a float: truncation toward zero. -/
def pyInt (q : ℚ) : ℤ := if 0 ≤ q then ⌊q⌋ else ⌈q⌉

/-- Tail-recursive core of `np.argmax` on a list: `best`/`bestVal` is the best
index and value seen so far, `i` the index of the head of the remaining list.
A later element wins only if strictly greater, so the first occurrence of the
maximum is kept, exactly as `np.argmax` does. -/
def argmaxFrom (best : ℕ) (bestVal : ℤ) (i : ℕ) : List ℤ → ℕ
  | [] => best
  | a :: rest =>
    if bestVal < a then argmaxFrom i a (i + 1) rest
    else argmaxFrom best bestVal (i + 1) rest

/-- Index of the first occurrence of the maximum value, as `np.argmax` computes
it on a non-empty list (`np.argmax` raises on an empty one; callers in scope
always pass non-empty data, and we return `0` there). -/
def npArgmax : List ℤ → ℕ
  | [] => 0
  | a :: rest => argmaxFrom 0 a 1 rest

/-- Embedding of the masking comprehension in `Slice.__init__`:
`[intensity if intensity > min_intensity and index > min_range else 0
  for index, intensity in enumerate(self.data)]`. -/
def maskedData (data : List ℤ) (min_range : ℤ) (min_intensity : ℚ) : List ℤ :=
  data.enum.map fun p => if min_intensity < (p.2 : ℚ) ∧ min_range < (p.1 : ℤ) then p.2 else 0

/-- Scan slice (`class Slice`), with the derived fields computed by
`Slice.__init__` (`clockwise`, `max`, `max_intensity`) stored alongside the
parsed ones.  Defaults keep concrete instances short. -/
structure Slice where
  timestamp : ℚ := 0
  hdctrl : ℕ := 0
  range : ℚ := 0
  left_limit : ℤ := 0
  right_limit : ℤ := 0
  steps : ℤ := 0
  heading : ℤ := 0
  num_bins : ℤ := 0
  data : List ℤ := []
  clockwise : Bool := false
  max : ℚ := 0
  max_intensity : ℤ := 0
deriving DecidableEq, Repr

/-- The masked bin array built in `Slice.__init__` from the raw CSV range field
(`self.range = float(row[5]) / 10`), the bin count, the raw bin data and the
two thresholds: `min_range = int(min_distance / self.range * self.num_bins)`
followed by the masking comprehension. -/
def Slice.mask (rangeRaw : ℚ) (num_bins : ℤ) (data : List ℤ)
    (min_distance min_intensity : ℚ) : List ℤ :=
  maskedData data (pyInt (min_distance / (rangeRaw / 10) * (num_bins : ℚ))) min_intensity

/-- Embedding of `Slice.__init__`.  `rangeRaw` is the raw decimeter field
`row[5]`; the stored `range` is `rangeRaw / 10`.  `clockwise` is bit 2 of the
HDCtrl bytes.  The chosen return is the masked argmax, overridden by the first
masked bin exceeding `threshold`; in both cases the stored intensity is read
from the raw (unmasked) data. -/
def Slice.make (timestamp : ℚ) (hdctrl : ℕ) (rangeRaw : ℚ)
    (left_limit right_limit steps heading num_bins : ℤ) (data : List ℤ)
    (min_distance min_intensity threshold : ℚ) : Slice :=
  let range := rangeRaw / 10
  let clockwise := decide (0 < hdctrl &&& 4)
  let masked := Slice.mask rangeRaw num_bins data min_distance min_intensity
  let argmax := npArgmax masked
  match masked.findIdx? (fun (v : ℤ) => decide (threshold < (v : ℚ))) with
  | some i =>
    { timestamp, hdctrl, range, left_limit, right_limit, steps, heading, num_bins, data, clockwise,
      max := ((i : ℚ) + 1) * range / (num_bins : ℚ),
      max_intensity := data.getD i 0 }
  | none =>
    { timestamp, hdctrl, range, left_limit, right_limit, steps, heading, num_bins, data, clockwise,
      max := ((argmax : ℚ) + 1) * range / (num_bins : ℚ),
      max_intensity := data.getD argmax 0 }

/-- Python list assignment `l[i] = v`: negative indices count from the end;
an index out of `[-len, len)` raises `IndexError`, modelled as `none`. -/
def pyListSet {α : Type} (l : List α) (i : ℤ) (v : α) : Option (List α) :=
  let n : ℤ := l.length
  let j : ℤ := if i < 0 then i + n else i
  if 0 ≤ j ∧ j < n then some (l.set j.toNat v) else none

/-- LaserScan message fields set by `Scan.to_laser_scan`.  Angular fields are
kept in sonar heading units; the source multiplies them by `π/3200`
(`sonar_angle_to_rad`) to obtain radians, which no claim references. -/
structure LaserScanMsg where
  frame_id : String
  stamp : ℚ
  time_increment : ℚ
  scan_time : ℚ
  angle_min_units : ℚ
  angle_max_units : ℚ
  angle_increment_units : ℤ
  range_min : ℚ
  range_max : Option ℚ
  ranges : List ℚ
  intensities : List ℤ
deriving DecidableEq, Repr

/-- PointCloud message as built by `Scan.to_pointcloud`: the intensity channel
is the concatenation of the buffered slices' raw bin data.  The parallel
`Point32` list (trigonometric, real-valued) is omitted; no claim refers to
it. -/
structure PointCloudMsg where
  frame_id : String
  channel_name : String
  channel_values : List ℤ
deriving DecidableEq, Repr

/-- Scan aggregator (`class Scan`).  The shape fields start as Python `None`,
modelled with `Option`. -/
structure Scan where
  range : Option ℚ
  steps : Option ℤ
  num_bins : Option ℤ
  left_limit : Option ℤ
  right_limit : Option ℤ
  clockwise : Option Bool
  slices : List Slice
  time : ℚ
deriving DecidableEq, Repr

/-- Embedding of `Scan.__init__`; `t` is the ROS time at construction. -/
def Scan.init (t : ℚ) : Scan :=
  { range := none, steps := none, num_bins := none, left_limit := none,
    right_limit := none, clockwise := none, slices := [], time := t }

/-- Embedding of `Scan.empty`. -/
def Scan.isEmpty (s : Scan) : Bool := s.slices.length == 0

/-- The `max_range` computed inside `Scan.full`: `6400` for the continuous-scan
sentinel pair, else `(right_limit - left_limit) % 6400`.  The limits are only
read when `steps` is set, in which case they are set too (see `Scan.add`); the
`getD 0` defaults are never reached from reachable states. -/
def Scan.max_range (s : Scan) : ℤ :=
  if s.right_limit = some 3201 ∧ s.left_limit = some 3199 then 6400
  else (s.right_limit.getD 0 - s.left_limit.getD 0) % 6400

/-- Embedding of `Scan.full`: `False` while `steps` is `None`, else the
Python 2 integer-division comparison `len(self.slices) == max_range / steps`. -/
def Scan.full (s : Scan) : Bool :=
  match s.steps with
  | none => false
  | some st => (s.slices.length : ℤ) == s.max_range.fdiv st

/-- Embedding of `Scan.add`: hard reset when any of the six shape fields
differs, otherwise evict the oldest (`pop(0)`) when full and append. -/
def Scan.add (s : Scan) (sl : Slice) : Scan :=
  if some sl.range ≠ s.range ∨ some sl.num_bins ≠ s.num_bins ∨ some sl.steps ≠ s.steps
      ∨ some sl.left_limit ≠ s.left_limit ∨ some sl.right_limit ≠ s.right_limit
      ∨ some sl.clockwise ≠ s.clockwise then
    { s with range := some sl.range, num_bins := some sl.num_bins, steps := some sl.steps,
             left_limit := some sl.left_limit, right_limit := some sl.right_limit,
             clockwise := some sl.clockwise, slices := [sl] }
  else
    { s with slices := (if s.full then s.slices.tail else s.slices) ++ [sl] }

/-- The six-way shape agreement that makes `Scan.add` take its append branch. -/
def Scan.shapeMatches (s : Scan) (sl : Slice) : Prop :=
  s.range = some sl.range ∧ s.num_bins = some sl.num_bins ∧ s.steps = some sl.steps
    ∧ s.left_limit = some sl.left_limit ∧ s.right_limit = some sl.right_limit
    ∧ s.clockwise = some sl.clockwise

instance (s : Scan) (sl : Slice) : Decidable (s.shapeMatches sl) := by
  unfold Scan.shapeMatches; infer_instance

/-- Embedding of `sorted(self.slices, key=lambda x: x.timestamp)`: Python's
`sorted` is a stable ascending sort by the key; insertion sort over the total
decidable order `timestamp ≤ timestamp` is stable, hence extensionally equal
to it (and, unlike merge sort, evaluates by kernel reduction). -/
def Scan.sortedSlices (s : Scan) : List Slice :=
  s.slices.insertionSort fun a b => a.timestamp ≤ b.timestamp

/-- Embedding of the Python slice `lst[-1 * queue:]` as used on the sorted
buffer: for `queue = 0` this is `lst[0:]`, the whole list; otherwise the
trailing `queue` elements (the guard in `to_laser_scan` ensures
`queue <= len`). -/
def queuedOf (sorted : List Slice) (queue : ℕ) : List Slice :=
  if queue = 0 then sorted else sorted.drop (sorted.length - queue)

/-- The bucket-write loop of `Scan.to_laser_scan`: for each slice, write
`max`/`max_intensity` at `index = heading / steps` (Python 2 floor division)
into the two arrays; `none` when Python would raise `IndexError`. -/
def writeSlices (st : ℤ) : List Slice → List ℚ × List ℤ → Option (List ℚ × List ℤ)
  | [], out => some out
  | sl :: rest, (rs, ins) => do
    let idx := sl.heading.fdiv st
    let rs' ← pyListSet rs idx sl.max
    let ins' ← pyListSet ins idx sl.max_intensity
    writeSlices st rest (rs', ins')

/-- Embedding of `Scan.to_laser_scan`.  Returns the call's result together
with the post-state: the method mutates `self.time` (line
`self.time += rospy.Duration.from_sec(scan.time_increment)`) before the bucket
writes, so both the success state and the `IndexError` state carry the updated
time.  `.ok none` is the early `return None`. -/
def Scan.to_laser_scan (s : Scan) (frame : String) (queue : ℕ) :
    Except Unit (Option LaserScanMsg) × Scan :=
  if s.slices.length < queue ∨ s.isEmpty then (Except.ok none, s)
  else
    let queued := queuedOf s.sortedSlices queue
    let ts_first := (queued.head?.map Slice.timestamp).getD 0
    let ts_last := (queued.getLast?.map Slice.timestamp).getD 0
    let time_increment := if 1 < queued.length then ts_last - ts_first else 0
    let scan_time := ts_last - ts_first
    let new_time := s.time + time_increment
    let st := s.steps.getD 0
    let num_of_headings := (Int.fdiv 6400 st).toNat
    match writeSlices st queued
        (List.replicate num_of_headings (0 : ℚ), List.replicate num_of_headings (0 : ℤ)) with
    | none => (Except.error (), { s with time := new_time })
    | some (rs, ins) =>
      (Except.ok (some
        { frame_id := frame
          stamp := new_time
          time_increment := time_increment
          scan_time := scan_time
          angle_min_units := 0
          angle_max_units := 6400
          angle_increment_units := st
          range_min := 1 / 10
          range_max := s.range
          ranges := rs
          intensities := ins }), { s with time := new_time })

/-- Embedding of `Scan.to_pointcloud`: the intensity channel concatenates the
buffered slices' raw bin data in buffer order. -/
def Scan.to_pointcloud (s : Scan) (frame : String) : PointCloudMsg :=
  { frame_id := frame, channel_name := "intensity",
    channel_values := (s.slices.map Slice.data).flatten }

/-- Aggregator states reachable from the empty initial state by `add` calls,
as produced by the drive loop in `main`. -/
inductive Reachable : Scan → Prop
  | init (t : ℚ) : Reachable (Scan.init t)
  | step {s : Scan} (sl : Slice) (h : Reachable s) : Reachable (s.add sl)

/-! Basic facts about `Scan.add` and `Scan.full`, and claims C5, C4, C1. -/

theorem add_of_shapeMatches (s : Scan) (sl : Slice) (hm : s.shapeMatches sl) :
    s.add sl = { s with slices := (if s.full then s.slices.tail else s.slices) ++ [sl] } := by
  obtain ⟨h1, h2, h3, h4, h5, h6⟩ := hm
  unfold Scan.add
  rw [if_neg]
  push_neg
  exact ⟨h1.symm, h2.symm, h3.symm, h4.symm, h5.symm, h6.symm⟩

/-- C5: adding a slice whose shape fields differ from the aggregator's current
shape in at least one of the six components resets the aggregator: the buffer
becomes the singleton `[sl]` and all six shape fields are adopted from the
incoming slice. -/
theorem c5_reset (s : Scan) (sl : Slice)
    (hdiff : some sl.range ≠ s.range ∨ some sl.num_bins ≠ s.num_bins
      ∨ some sl.steps ≠ s.steps ∨ some sl.left_limit ≠ s.left_limit
      ∨ some sl.right_limit ≠ s.right_limit ∨ some sl.clockwise ≠ s.clockwise) :
    (s.add sl).slices = [sl] ∧ (s.add sl).range = some sl.range
      ∧ (s.add sl).num_bins = some sl.num_bins ∧ (s.add sl).steps = some sl.steps
      ∧ (s.add sl).left_limit = some sl.left_limit
      ∧ (s.add sl).right_limit = some sl.right_limit
      ∧ (s.add sl).clockwise = some sl.clockwise := by
  unfold Scan.add
  rw [if_pos hdiff]
  exact ⟨rfl, rfl, rfl, rfl, rfl, rfl, rfl⟩

theorem c5_reset_witness :
    (some (0 : ℚ) ≠ (Scan.init 7).range ∨ some (0 : ℤ) ≠ (Scan.init 7).num_bins
      ∨ some (0 : ℤ) ≠ (Scan.init 7).steps ∨ some (0 : ℤ) ≠ (Scan.init 7).left_limit
      ∨ some (0 : ℤ) ≠ (Scan.init 7).right_limit ∨ some false ≠ (Scan.init 7).clockwise)
      ∧ (((Scan.init 7).add {}).slices = [{}]
        ∧ ((Scan.init 7).add {}).range = some (0 : ℚ)
        ∧ ((Scan.init 7).add {}).num_bins = some (0 : ℤ)
        ∧ ((Scan.init 7).add {}).steps = some (0 : ℤ)
        ∧ ((Scan.init 7).add {}).left_limit = some (0 : ℤ)
        ∧ ((Scan.init 7).add {}).right_limit = some (0 : ℤ)
        ∧ ((Scan.init 7).add {}).clockwise = some false) :=
  ⟨Or.inl (by decide), c5_reset (Scan.init 7) {} (Or.inl (by decide))⟩

/-- C4: for an aggregator whose adopted shape has `steps = st > 0` and sweep
limits `rl`, `ll`, the aggregator is full iff the buffer length equals
`floor(max_range / st)` where `max_range` is `6400` for the sentinel pair
`rl = 3201, ll = 3199` and `(rl - ll) mod 6400` otherwise; and adding a slice
with matching shape to a full (hence non-empty) aggregator keeps the buffer
length constant, evicting the oldest-by-insertion slice before appending. -/
theorem c4_full_evict (s : Scan) (st rl ll : ℤ)
    (hst : s.steps = some st) (_hpos : 0 < st)
    (hrl : s.right_limit = some rl) (hll : s.left_limit = some ll) :
    s.max_range = (if rl = 3201 ∧ ll = 3199 then 6400 else (rl - ll) % 6400)
      ∧ (s.full = true ↔ (s.slices.length : ℤ) = s.max_range.fdiv st)
      ∧ ∀ sl : Slice, s.shapeMatches sl → s.full = true → s.slices ≠ [] →
          ((s.add sl).slices.length = s.slices.length
            ∧ (s.add sl).slices = s.slices.tail ++ [sl]) := by
  refine ⟨?_, ?_, ?_⟩
  · unfold Scan.max_range
    rw [hrl, hll]
    simp [Option.some_inj]
  · unfold Scan.full
    rw [hst]
    simp
  · intro sl hm hfull hne
    rw [add_of_shapeMatches s sl hm]
    constructor
    · simp only [hfull, if_true, List.length_append, List.length_tail, List.length_cons,
        List.length_nil]
      have : 0 < s.slices.length := List.length_pos.mpr hne
      omega
    · simp [hfull]

def sliceA4 : Slice := { timestamp := 0, range := 10, num_bins := 2, steps := 16, heading := 0,
                         left_limit := 0, right_limit := 32 }

def sliceB4 : Slice := { timestamp := 1, range := 10, num_bins := 2, steps := 16, heading := 16,
                         left_limit := 0, right_limit := 32 }

def sliceC4 : Slice := { timestamp := 2, range := 10, num_bins := 2, steps := 16, heading := 32,
                         left_limit := 0, right_limit := 32 }

def scan4 : Scan :=
  { range := some 10, steps := some 16, num_bins := some 2, left_limit := some 0,
    right_limit := some 32, clockwise := some false, slices := [sliceA4, sliceB4], time := 0 }

theorem c4_full_evict_witness :
    (scan4.steps = some 16 ∧ (0 : ℤ) < 16 ∧ scan4.right_limit = some 32
        ∧ scan4.left_limit = some 0 ∧ scan4.shapeMatches sliceC4 ∧ scan4.full = true
        ∧ scan4.slices ≠ [])
      ∧ (scan4.max_range = (if (32 : ℤ) = 3201 ∧ (0 : ℤ) = 3199 then 6400 else (32 - 0) % 6400)
        ∧ (scan4.full = true ↔ (scan4.slices.length : ℤ) = scan4.max_range.fdiv 16)
        ∧ ((scan4.add sliceC4).slices.length = scan4.slices.length
          ∧ (scan4.add sliceC4).slices = scan4.slices.tail ++ [sliceC4])) := by
  have h := c4_full_evict scan4 16 32 0 rfl (by decide) rfl rfl
  exact ⟨⟨rfl, by decide, rfl, rfl, by decide, by decide, by decide⟩,
    h.1, h.2.1, h.2.2 sliceC4 (by decide) (by decide) (by decide)⟩

/-! Claim C1: whether projections mutate aggregator state. -/

/-- C1 (amended): `to_laser_scan` never touches the buffer or any of the six
shape fields of the aggregator — but it is not state-preserving in full: it
advances the stored publication time (see `c1_cex`).  Every component of the
post-state other than `time` equals the corresponding component of the
pre-state, for every aggregator state and queue value. -/
theorem c1_frame (s : Scan) (frame : String) (queue : ℕ) :
    (s.to_laser_scan frame queue).2.slices = s.slices
      ∧ (s.to_laser_scan frame queue).2.range = s.range
      ∧ (s.to_laser_scan frame queue).2.steps = s.steps
      ∧ (s.to_laser_scan frame queue).2.num_bins = s.num_bins
      ∧ (s.to_laser_scan frame queue).2.left_limit = s.left_limit
      ∧ (s.to_laser_scan frame queue).2.right_limit = s.right_limit
      ∧ (s.to_laser_scan frame queue).2.clockwise = s.clockwise := by
  unfold Scan.to_laser_scan
  split
  · exact ⟨rfl, rfl, rfl, rfl, rfl, rfl, rfl⟩
  · dsimp only
    split
    · exact ⟨rfl, rfl, rfl, rfl, rfl, rfl, rfl⟩
    · exact ⟨rfl, rfl, rfl, rfl, rfl, rfl, rfl⟩

def sliceA1 : Slice := { timestamp := 0, range := 10, num_bins := 2, steps := 1600, heading := 0,
                         left_limit := 0, right_limit := 3200 }

def sliceB1 : Slice := { timestamp := 1, range := 10, num_bins := 2, steps := 1600,
                         heading := 1600, left_limit := 0, right_limit := 3200 }

def scan1 : Scan :=
  { range := some 10, steps := some 1600, num_bins := some 2, left_limit := some 0,
    right_limit := some 3200, clockwise := some false, slices := [sliceA1, sliceB1], time := 100 }

/-- C1 (counterexample): a projection call does mutate observable aggregator
state.  On a buffer of two slices with distinct timestamps, `to_laser_scan`
advances the aggregator's `time` field (the source line
`self.time += rospy.Duration.from_sec(scan.time_increment)`), so the state
observable after the call differs from the state before it. -/
theorem c1_cex : (scan1.to_laser_scan "sonar" 0).2.time ≠ scan1.time := by
  have h : (scan1.to_laser_scan "sonar" 0).2.time = 101 := by
    norm_num [Scan.to_laser_scan, scan1, sliceA1, sliceB1, Scan.sortedSlices, queuedOf,
      Scan.isEmpty, writeSlices, pyListSet, List.insertionSort, List.orderedInsert,
      Option.bind, show Int.fdiv 6400 1600 = 4 by decide]
  rw [h]
  norm_num [scan1]

/-! Characterisation of `np.argmax` (first index of the maximum) and of the
masked bin array, used by claims C2, C3, C10. -/

theorem getD_mem_of_lt {l : List ℤ} {j : ℕ} (h : j < l.length) : l.getD j 0 ∈ l := by
  rw [List.getD_eq_getElem _ _ h]
  exact List.getElem_mem h

theorem argmaxFrom_spec (l : List ℤ) : ∀ (best : ℕ) (bestVal : ℤ) (i : ℕ),
    (argmaxFrom best bestVal i l = best ∧ ∀ v ∈ l, v ≤ bestVal)
    ∨ ∃ k, k < l.length ∧ argmaxFrom best bestVal i l = i + k
        ∧ bestVal < l.getD k 0
        ∧ (∀ j, j < l.length → l.getD j 0 ≤ l.getD k 0)
        ∧ (∀ j, j < k → l.getD j 0 < l.getD k 0) := by
  induction l with
  | nil =>
    intro best bestVal i
    exact Or.inl ⟨rfl, by simp⟩
  | cons a rest ih =>
    intro best bestVal i
    by_cases h : bestVal < a
    · rw [show argmaxFrom best bestVal i (a :: rest) = argmaxFrom i a (i + 1) rest by
        simp [argmaxFrom, h]]
      rcases ih i a (i + 1) with ⟨heq, hle⟩ | ⟨k, hk, heq, hgt, hmax, hfirst⟩
      · refine Or.inr ⟨0, by simp, by simpa using heq, by simpa using h, ?_, by simp⟩
        intro j hj
        match j with
        | 0 => simp
        | j + 1 =>
          simp only [List.getD_cons_succ, List.getD_cons_zero]
          exact hle _ (getD_mem_of_lt (by simpa using hj))
      · refine Or.inr ⟨k + 1, by simpa using hk, by rw [heq]; omega, ?_, ?_, ?_⟩
        · simpa using h.trans hgt
        · intro j hj
          match j with
          | 0 => simpa using hgt.le
          | j + 1 => simpa using hmax j (by simpa using hj)
        · intro j hj
          match j with
          | 0 => simpa using hgt
          | j + 1 => simpa using hfirst j (by omega)
    · rw [show argmaxFrom best bestVal i (a :: rest) = argmaxFrom best bestVal (i + 1) rest by
        simp [argmaxFrom, h]]
      rcases ih best bestVal (i + 1) with ⟨heq, hle⟩ | ⟨k, hk, heq, hgt, hmax, hfirst⟩
      · refine Or.inl ⟨heq, ?_⟩
        intro v hv
        rcases List.mem_cons.mp hv with rfl | hv'
        · exact not_lt.mp h
        · exact hle v hv'
      · refine Or.inr ⟨k + 1, by simpa using hk, by rw [heq]; omega, ?_, ?_, ?_⟩
        · simpa using hgt
        · intro j hj
          match j with
          | 0 => simpa using ((not_lt.mp h).trans hgt.le)
          | j + 1 => simpa using hmax j (by simpa using hj)
        · intro j hj
          match j with
          | 0 => simpa using lt_of_le_of_lt (not_lt.mp h) hgt
          | j + 1 => simpa using hfirst j (by omega)

theorem npArgmax_spec (l : List ℤ) (hne : l ≠ []) :
    npArgmax l < l.length
      ∧ (∀ j, j < l.length → l.getD j 0 ≤ l.getD (npArgmax l) 0)
      ∧ (∀ j, j < npArgmax l → l.getD j 0 < l.getD (npArgmax l) 0) := by
  match l, hne with
  | a :: rest, _ =>
    have hnp : npArgmax (a :: rest) = argmaxFrom 0 a 1 rest := rfl
    rcases argmaxFrom_spec rest 0 a 1 with ⟨heq, hle⟩ | ⟨k, hk, heq, hgt, hmax, hfirst⟩
    · rw [hnp, heq]
      refine ⟨by simp, ?_, by simp⟩
      intro j hj
      match j with
      | 0 => simp
      | j + 1 =>
        simp only [List.getD_cons_succ, List.getD_cons_zero]
        exact hle _ (getD_mem_of_lt (by simpa using hj))
    · have h1k : 1 + k = k + 1 := Nat.add_comm 1 k
      rw [hnp, heq, h1k]
      refine ⟨by simp only [List.length_cons]; omega, ?_, ?_⟩
      · intro j hj
        match j with
        | 0 => simpa using hgt.le
        | j + 1 => simpa using hmax j (by simpa using hj)
      · intro j hj
        match j with
        | 0 => simpa using hgt
        | j + 1 => simpa using hfirst j (by omega)

theorem npArgmax_eq_of (l : List ℤ) (i : ℕ) (hne : l ≠ []) (hi : i < l.length)
    (hmax : ∀ j, j < l.length → l.getD j 0 ≤ l.getD i 0)
    (hfirst : ∀ j, j < i → l.getD j 0 < l.getD i 0) :
    npArgmax l = i := by
  obtain ⟨hlt, hmax', hfirst'⟩ := npArgmax_spec l hne
  rcases lt_trichotomy (npArgmax l) i with h | h | h
  · exact absurd (hfirst _ h) (not_lt.mpr (hmax' _ hi))
  · exact h
  · exact absurd (hfirst' _ h) (not_lt.mpr (hmax _ hlt))

theorem maskedData_length (data : List ℤ) (mr : ℤ) (mi : ℚ) :
    (maskedData data mr mi).length = data.length := by
  simp [maskedData]

theorem maskedData_getD (data : List ℤ) (mr : ℤ) (mi : ℚ) (j : ℕ) (hj : j < data.length) :
    (maskedData data mr mi).getD j 0
      = if mi < (data.getD j 0 : ℚ) ∧ mr < (j : ℤ) then data.getD j 0 else 0 := by
  unfold maskedData
  rw [List.getD_eq_getElem _ _ (by simpa [maskedData_length, maskedData] using hj),
    List.getD_eq_getElem _ _ hj]
  simp [List.enum_eq_zip_range, hj]

/-! Claims C2, C3, C10: the chosen range/intensity policy of the slice
parser. -/

theorem pyInt_eq_floor {q : ℚ} (h : 0 ≤ q) : pyInt q = ⌊q⌋ := by
  simp [pyInt, h]

theorem mask_findIdx_none_of_le (rangeRaw : ℚ) (nb : ℤ) (data : List ℤ) (dmin imin thr : ℚ)
    (hover : ∀ v ∈ Slice.mask rangeRaw nb data dmin imin, (v : ℚ) ≤ thr) :
    (Slice.mask rangeRaw nb data dmin imin).findIdx? (fun (v : ℤ) => decide (thr < (v : ℚ))) = none := by
  rw [List.findIdx?_eq_none_iff]
  intro x hx
  simpa using hover x hx

/-- C2 (amended): for a parsed slice with `num_bins > 0`, `range > 0`,
`min_distance ≥ 0`, bin data of length `num_bins`, in which no masked bin
exceeds the override threshold and the masked array has a positive maximum,
the chosen return is the bin at the first index `i` carrying the maximum of
the masked array: `chosen_range = (i+1) * range / num_bins` and
`chosen_intensity` is that masked bin's value.  The first conjunct ties the
code's mask cutoff (`pyInt`, Python `int()`) to the claim's
`floor(min_distance / range * num_bins)`.  Without the positive-maximum
hypothesis the intensity conclusion fails: see the counterexample. -/
theorem c2_masked_argmax
    (ts : ℚ) (hd : ℕ) (rangeRaw : ℚ) (ll rl st hdg nb : ℤ) (data : List ℤ)
    (dmin imin thr : ℚ)
    (hnb : 0 < nb) (hlen : (data.length : ℤ) = nb) (hr : 0 < rangeRaw) (hdm : 0 ≤ dmin)
    (hover : ∀ v ∈ Slice.mask rangeRaw nb data dmin imin, (v : ℚ) ≤ thr)
    (hpos : ∃ v ∈ Slice.mask rangeRaw nb data dmin imin, 0 < v)
    (i : ℕ) (hi : i < data.length)
    (hmax : ∀ j, j < data.length →
      (Slice.mask rangeRaw nb data dmin imin).getD j 0
        ≤ (Slice.mask rangeRaw nb data dmin imin).getD i 0)
    (hfirst : ∀ j, j < i →
      (Slice.mask rangeRaw nb data dmin imin).getD j 0
        < (Slice.mask rangeRaw nb data dmin imin).getD i 0) :
    pyInt (dmin / (rangeRaw / 10) * (nb : ℚ)) = ⌊dmin / (rangeRaw / 10) * (nb : ℚ)⌋
      ∧ (Slice.make ts hd rangeRaw ll rl st hdg nb data dmin imin thr).max
        = ((i : ℚ) + 1) * (Slice.make ts hd rangeRaw ll rl st hdg nb data dmin imin thr).range
            / (nb : ℚ)
      ∧ (Slice.make ts hd rangeRaw ll rl st hdg nb data dmin imin thr).max_intensity
        = (Slice.mask rangeRaw nb data dmin imin).getD i 0 := by
  have hmlen : (Slice.mask rangeRaw nb data dmin imin).length = data.length := by
    simp [Slice.mask, maskedData_length]
  have hne : Slice.mask rangeRaw nb data dmin imin ≠ [] := by
    intro h
    rw [h] at hmlen
    simp at hmlen
    omega
  have hno := mask_findIdx_none_of_le rangeRaw nb data dmin imin thr hover
  have harg : npArgmax (Slice.mask rangeRaw nb data dmin imin) = i :=
    npArgmax_eq_of _ i hne (by omega) (fun j hj => hmax j (by omega))
      hfirst
  have hmake : Slice.make ts hd rangeRaw ll rl st hdg nb data dmin imin thr
      = { timestamp := ts, hdctrl := hd, range := rangeRaw / 10, left_limit := ll,
          right_limit := rl, steps := st, heading := hdg, num_bins := nb, data := data,
          clockwise := decide (0 < hd &&& 4),
          max := ((npArgmax (Slice.mask rangeRaw nb data dmin imin) : ℚ) + 1)
              * (rangeRaw / 10) / (nb : ℚ),
          max_intensity := data.getD (npArgmax (Slice.mask rangeRaw nb data dmin imin)) 0 } := by
    simp only [Slice.make, hno]
  -- the masked value at `i` is positive, hence equals the raw value there
  obtain ⟨v, hv, hvpos⟩ := hpos
  obtain ⟨k, hk, rfl⟩ := List.mem_iff_getElem.mp hv
  have hkD : (Slice.mask rangeRaw nb data dmin imin).getD k 0
      = (Slice.mask rangeRaw nb data dmin imin)[k] := List.getD_eq_getElem _ _ hk
  have hipos : 0 < (Slice.mask rangeRaw nb data dmin imin).getD i 0 :=
    lt_of_lt_of_le (hkD ▸ hvpos) (hmax k (by omega))
  have hraw : (Slice.mask rangeRaw nb data dmin imin).getD i 0 = data.getD i 0 := by
    have := maskedData_getD data (pyInt (dmin / (rangeRaw / 10) * (nb : ℚ))) imin i hi
    rw [Slice.mask] at hipos ⊢
    rw [this] at hipos ⊢
    by_cases hcond : imin < (data.getD i 0 : ℚ)
        ∧ pyInt (dmin / (rangeRaw / 10) * (nb : ℚ)) < (i : ℤ)
    · rw [if_pos hcond]
    · rw [if_neg hcond] at hipos
      exact absurd hipos (by simp)
  refine ⟨?_, ?_, ?_⟩
  · refine pyInt_eq_floor ?_
    have h10 : 0 < rangeRaw / 10 := by positivity
    have : 0 ≤ dmin / (rangeRaw / 10) := div_nonneg hdm h10.le
    have hnbq : (0 : ℚ) ≤ (nb : ℚ) := by exact_mod_cast hnb.le
    exact mul_nonneg this hnbq
  · rw [hmake, harg]
  · rw [hmake, harg, hraw]

/-- C2 (counterexample): bins `[10]` with `min_intensity = 50`,
`threshold = 1000`, `min_distance = 0`, `range = 10 > 0`, `num_bins = 1 > 0`.
The masked array is `[0]`, so the claim's chosen bin is index 0 with masked
value `0` and no masked bin exceeds the threshold — yet the code stores
`chosen_intensity = 10`, the raw value of bin 0, not the masked value `0`. -/
theorem c2_cex :
    Slice.mask 100 1 [10] 0 50 = [0]
      ∧ (∀ v ∈ Slice.mask 100 1 [10] 0 50, (v : ℚ) ≤ 1000)
      ∧ (Slice.make 0 0 100 0 0 0 0 1 [10] 0 50 1000).max_intensity = 10
      ∧ (Slice.make 0 0 100 0 0 0 0 1 [10] 0 50 1000).max_intensity
        ≠ (Slice.mask 100 1 [10] 0 50).getD 0 0 := by
  have hmask : Slice.mask 100 1 [10] 0 50 = [0] := by
    norm_num [Slice.mask, maskedData, pyInt, List.enum, List.enumFrom]
  have hmake : (Slice.make 0 0 100 0 0 0 0 1 [10] 0 50 1000).max_intensity = 10 := by
    norm_num [Slice.make, hmask, List.findIdx?, npArgmax, argmaxFrom]
  refine ⟨hmask, ?_, hmake, ?_⟩
  · rw [hmask]
    intro v hv
    simp only [List.mem_singleton] at hv
    subst hv
    norm_num
  · rw [hmake, hmask]
    decide

theorem c2_masked_argmax_witness :
    ((0 : ℤ) < 5 ∧ ((([10, 60, 5, 80, 40] : List ℤ).length : ℤ) = 5) ∧ (0 : ℚ) < 100
        ∧ (0 : ℚ) ≤ 0
        ∧ (∀ v ∈ Slice.mask 100 5 [10, 60, 5, 80, 40] 0 50, (v : ℚ) ≤ 1000)
        ∧ (∃ v ∈ Slice.mask 100 5 [10, 60, 5, 80, 40] 0 50, 0 < v)
        ∧ 3 < ([10, 60, 5, 80, 40] : List ℤ).length
        ∧ (∀ j, j < ([10, 60, 5, 80, 40] : List ℤ).length →
            (Slice.mask 100 5 [10, 60, 5, 80, 40] 0 50).getD j 0
              ≤ (Slice.mask 100 5 [10, 60, 5, 80, 40] 0 50).getD 3 0)
        ∧ (∀ j, j < 3 →
            (Slice.mask 100 5 [10, 60, 5, 80, 40] 0 50).getD j 0
              < (Slice.mask 100 5 [10, 60, 5, 80, 40] 0 50).getD 3 0))
      ∧ (pyInt (0 / ((100 : ℚ) / 10) * ((5 : ℤ) : ℚ)) = ⌊0 / ((100 : ℚ) / 10) * ((5 : ℤ) : ℚ)⌋
        ∧ (Slice.make 0 0 100 0 0 0 0 5 [10, 60, 5, 80, 40] 0 50 1000).max
          = (((3 : ℕ) : ℚ) + 1)
              * (Slice.make 0 0 100 0 0 0 0 5 [10, 60, 5, 80, 40] 0 50 1000).range
              / ((5 : ℤ) : ℚ)
        ∧ (Slice.make 0 0 100 0 0 0 0 5 [10, 60, 5, 80, 40] 0 50 1000).max_intensity
          = (Slice.mask 100 5 [10, 60, 5, 80, 40] 0 50).getD 3 0) := by
  have hmask : Slice.mask 100 5 [10, 60, 5, 80, 40] 0 50 = [0, 60, 0, 80, 0] := by
    norm_num [Slice.mask, maskedData, pyInt, List.enum, List.enumFrom]
  have h1 : (0 : ℤ) < 5 := by decide
  have h2 : ((([10, 60, 5, 80, 40] : List ℤ).length : ℤ) = 5) := by decide
  have h3 : (0 : ℚ) < 100 := by norm_num
  have h4 : (0 : ℚ) ≤ 0 := le_refl 0
  have h5 : ∀ v ∈ Slice.mask 100 5 [10, 60, 5, 80, 40] 0 50, (v : ℚ) ≤ 1000 := by
    rw [hmask]
    intro v hv
    fin_cases hv <;> norm_num
  have h6 : ∃ v ∈ Slice.mask 100 5 [10, 60, 5, 80, 40] 0 50, 0 < v := by
    rw [hmask]
    exact ⟨60, by decide, by decide⟩
  have h7 : 3 < ([10, 60, 5, 80, 40] : List ℤ).length := by decide
  have h8 : ∀ j, j < ([10, 60, 5, 80, 40] : List ℤ).length →
      (Slice.mask 100 5 [10, 60, 5, 80, 40] 0 50).getD j 0
        ≤ (Slice.mask 100 5 [10, 60, 5, 80, 40] 0 50).getD 3 0 := by
    rw [hmask]
    decide
  have h9 : ∀ j, j < 3 →
      (Slice.mask 100 5 [10, 60, 5, 80, 40] 0 50).getD j 0
        < (Slice.mask 100 5 [10, 60, 5, 80, 40] 0 50).getD 3 0 := by
    rw [hmask]
    decide
  exact ⟨⟨h1, h2, h3, h4, h5, h6, h7, h8, h9⟩,
    c2_masked_argmax 0 0 100 0 0 0 0 5 [10, 60, 5, 80, 40] 0 50 1000
      h1 h2 h3 h4 h5 h6 3 h7 h8 h9⟩

/-- C3: if some bin of the masked array strictly exceeds the supplied
threshold, the parser selects the lowest-index such bin `i`, overriding the
masked-maximum default: `chosen_range = (i+1) * range / num_bins` and
`chosen_intensity` is that bin's (raw) value — which coincides with its masked
value whenever the threshold is nonnegative, since a masked value above the
threshold is then positive and masking preserves positive values. -/
theorem c3_override
    (ts : ℚ) (hd : ℕ) (rangeRaw : ℚ) (ll rl st hdg nb : ℤ) (data : List ℤ)
    (dmin imin thr : ℚ)
    (i : ℕ) (hi : i < (Slice.mask rangeRaw nb data dmin imin).length)
    (hgt : thr < (((Slice.mask rangeRaw nb data dmin imin).getD i 0 : ℤ) : ℚ))
    (hfirst : ∀ j, j < i →
      ¬ thr < (((Slice.mask rangeRaw nb data dmin imin).getD j 0 : ℤ) : ℚ)) :
    (Slice.make ts hd rangeRaw ll rl st hdg nb data dmin imin thr).max
        = ((i : ℚ) + 1) * (Slice.make ts hd rangeRaw ll rl st hdg nb data dmin imin thr).range
            / (nb : ℚ)
      ∧ (Slice.make ts hd rangeRaw ll rl st hdg nb data dmin imin thr).max_intensity
        = data.getD i 0
      ∧ (0 ≤ thr →
          (Slice.make ts hd rangeRaw ll rl st hdg nb data dmin imin thr).max_intensity
            = (Slice.mask rangeRaw nb data dmin imin).getD i 0) := by
  have hmlen : (Slice.mask rangeRaw nb data dmin imin).length = data.length := by
    simp [Slice.mask, maskedData_length]
  have hsome : (Slice.mask rangeRaw nb data dmin imin).findIdx?
      (fun (v : ℤ) => decide (thr < (v : ℚ))) = some i := by
    rw [List.findIdx?_eq_some_iff_getElem]
    refine ⟨hi, ?_, ?_⟩
    · rw [← List.getD_eq_getElem _ (0 : ℤ) hi]
      simpa using hgt
    · intro j hj
      rw [← List.getD_eq_getElem _ (0 : ℤ) (hj.trans hi)]
      simpa using hfirst j hj
  have hmake : Slice.make ts hd rangeRaw ll rl st hdg nb data dmin imin thr
      = { timestamp := ts, hdctrl := hd, range := rangeRaw / 10, left_limit := ll,
          right_limit := rl, steps := st, heading := hdg, num_bins := nb, data := data,
          clockwise := decide (0 < hd &&& 4),
          max := ((i : ℚ) + 1) * (rangeRaw / 10) / (nb : ℚ),
          max_intensity := data.getD i 0 } := by
    simp only [Slice.make, hsome]
  refine ⟨by rw [hmake], by rw [hmake], ?_⟩
  intro hthr
  rw [hmake]
  have hipos : 0 < (Slice.mask rangeRaw nb data dmin imin).getD i 0 := by
    by_contra hle
    push_neg at hle
    have : (((Slice.mask rangeRaw nb data dmin imin).getD i 0 : ℤ) : ℚ) ≤ 0 := by
      exact_mod_cast hle
    exact absurd hgt (not_lt.mpr (this.trans hthr))
  have hraw : (Slice.mask rangeRaw nb data dmin imin).getD i 0 = data.getD i 0 := by
    have hid : i < data.length := hmlen ▸ hi
    have hD := maskedData_getD data (pyInt (dmin / (rangeRaw / 10) * (nb : ℚ))) imin i hid
    rw [Slice.mask] at hipos ⊢
    rw [hD] at hipos ⊢
    by_cases hcond : imin < (data.getD i 0 : ℚ)
        ∧ pyInt (dmin / (rangeRaw / 10) * (nb : ℚ)) < (i : ℤ)
    · rw [if_pos hcond]
    · rw [if_neg hcond] at hipos
      exact absurd hipos (by simp)
  exact hraw.symm

theorem c3_override_witness :
    (1 < (Slice.mask 100 5 [10, 60, 5, 80, 40] 0 50).length
        ∧ (55 : ℚ) < (((Slice.mask 100 5 [10, 60, 5, 80, 40] 0 50).getD 1 0 : ℤ) : ℚ)
        ∧ (∀ j, j < 1 →
            ¬ (55 : ℚ) < (((Slice.mask 100 5 [10, 60, 5, 80, 40] 0 50).getD j 0 : ℤ) : ℚ)))
      ∧ ((Slice.make 0 0 100 0 0 0 0 5 [10, 60, 5, 80, 40] 0 50 55).max
          = (((1 : ℕ) : ℚ) + 1)
              * (Slice.make 0 0 100 0 0 0 0 5 [10, 60, 5, 80, 40] 0 50 55).range
              / ((5 : ℤ) : ℚ)
        ∧ (Slice.make 0 0 100 0 0 0 0 5 [10, 60, 5, 80, 40] 0 50 55).max_intensity
          = ([10, 60, 5, 80, 40] : List ℤ).getD 1 0
        ∧ ((0 : ℚ) ≤ 55 →
            (Slice.make 0 0 100 0 0 0 0 5 [10, 60, 5, 80, 40] 0 50 55).max_intensity
              = (Slice.mask 100 5 [10, 60, 5, 80, 40] 0 50).getD 1 0)) := by
  have hmask : Slice.mask 100 5 [10, 60, 5, 80, 40] 0 50 = [0, 60, 0, 80, 0] := by
    norm_num [Slice.mask, maskedData, pyInt, List.enum, List.enumFrom]
  have h1 : 1 < (Slice.mask 100 5 [10, 60, 5, 80, 40] 0 50).length := by
    rw [hmask]; decide
  have h2 : (55 : ℚ) < (((Slice.mask 100 5 [10, 60, 5, 80, 40] 0 50).getD 1 0 : ℤ) : ℚ) := by
    rw [hmask]
    norm_num
  have h3 : ∀ j, j < 1 →
      ¬ (55 : ℚ) < (((Slice.mask 100 5 [10, 60, 5, 80, 40] 0 50).getD j 0 : ℤ) : ℚ) := by
    intro j hj
    interval_cases j
    rw [hmask]
    norm_num
  exact ⟨⟨h1, h2, h3⟩, c3_override 0 0 100 0 0 0 0 5 [10, 60, 5, 80, 40] 0 50 55 1 h1 h2 h3⟩

/-- C10: when every bin of the masked array is zero and no masked bin exceeds
the override threshold, the parser falls through to the masked argmax, which
is index 0; it stores `chosen_range = range / num_bins` (the first bin's
radial position) and `chosen_intensity` equal to the raw, unmasked intensity
of bin 0 — which may be nonzero and at-or-below `min_intensity`. -/
theorem c10_all_masked_zero
    (ts : ℚ) (hd : ℕ) (rangeRaw : ℚ) (ll rl st hdg nb : ℤ) (data : List ℤ)
    (dmin imin thr : ℚ)
    (hne : data ≠ [])
    (hzero : ∀ v ∈ Slice.mask rangeRaw nb data dmin imin, v = 0)
    (hover : ∀ v ∈ Slice.mask rangeRaw nb data dmin imin, (v : ℚ) ≤ thr) :
    (Slice.make ts hd rangeRaw ll rl st hdg nb data dmin imin thr).max
        = (Slice.make ts hd rangeRaw ll rl st hdg nb data dmin imin thr).range / (nb : ℚ)
      ∧ (Slice.make ts hd rangeRaw ll rl st hdg nb data dmin imin thr).max_intensity
        = data.getD 0 0 := by
  have hmlen : (Slice.mask rangeRaw nb data dmin imin).length = data.length := by
    simp [Slice.mask, maskedData_length]
  have hlen0 : 0 < data.length := List.length_pos.mpr hne
  have hmne : Slice.mask rangeRaw nb data dmin imin ≠ [] := by
    intro h
    rw [h] at hmlen
    simp at hmlen
    omega
  have hDzero : ∀ j : ℕ, (Slice.mask rangeRaw nb data dmin imin).getD j 0 = 0 := by
    intro j
    by_cases hj : j < (Slice.mask rangeRaw nb data dmin imin).length
    · exact hzero _ (getD_mem_of_lt hj)
    · push_neg at hj
      exact List.getD_eq_default _ _ hj
  have hno := mask_findIdx_none_of_le rangeRaw nb data dmin imin thr hover
  have harg : npArgmax (Slice.mask rangeRaw nb data dmin imin) = 0 :=
    npArgmax_eq_of _ 0 hmne (by omega) (fun j _ => by rw [hDzero, hDzero])
      (fun j hj => absurd hj (Nat.not_lt_zero j))
  have hmake : Slice.make ts hd rangeRaw ll rl st hdg nb data dmin imin thr
      = { timestamp := ts, hdctrl := hd, range := rangeRaw / 10, left_limit := ll,
          right_limit := rl, steps := st, heading := hdg, num_bins := nb, data := data,
          clockwise := decide (0 < hd &&& 4),
          max := ((npArgmax (Slice.mask rangeRaw nb data dmin imin) : ℚ) + 1)
              * (rangeRaw / 10) / (nb : ℚ),
          max_intensity := data.getD (npArgmax (Slice.mask rangeRaw nb data dmin imin)) 0 } := by
    simp only [Slice.make, hno]
  constructor
  · rw [hmake, harg]
    norm_num
  · rw [hmake, harg]

theorem c10_all_masked_zero_witness :
    (([10, 20] : List ℤ) ≠ []
        ∧ (∀ v ∈ Slice.mask 100 2 [10, 20] 0 50, v = 0)
        ∧ (∀ v ∈ Slice.mask 100 2 [10, 20] 0 50, (v : ℚ) ≤ 1 / 2))
      ∧ ((Slice.make 0 0 100 0 0 0 0 2 [10, 20] 0 50 (1 / 2)).max
          = (Slice.make 0 0 100 0 0 0 0 2 [10, 20] 0 50 (1 / 2)).range / ((2 : ℤ) : ℚ)
        ∧ (Slice.make 0 0 100 0 0 0 0 2 [10, 20] 0 50 (1 / 2)).max_intensity
          = ([10, 20] : List ℤ).getD 0 0) := by
  have hmask : Slice.mask 100 2 [10, 20] 0 50 = [0, 0] := by
    norm_num [Slice.mask, maskedData, pyInt, List.enum, List.enumFrom]
  have h1 : ([10, 20] : List ℤ) ≠ [] := by decide
  have h2 : ∀ v ∈ Slice.mask 100 2 [10, 20] 0 50, v = 0 := by
    rw [hmask]
    decide
  have h3 : ∀ v ∈ Slice.mask 100 2 [10, 20] 0 50, (v : ℚ) ≤ 1 / 2 := by
    rw [hmask]
    intro v hv
    fin_cases hv <;> norm_num
  exact ⟨⟨h1, h2, h3⟩, c10_all_masked_zero 0 0 100 0 0 0 0 2 [10, 20] 0 50 (1 / 2) h1 h2 h3⟩

/-! Machinery for the bucket-write loop of `Scan.to_laser_scan`, used by
claims C7, C8, C9. -/

theorem getD_set_eq {α : Type} (l : List α) (i : ℕ) (v d : α) (h : i < l.length) :
    (l.set i v).getD i d = v := by
  rw [List.getD_eq_getElem?_getD, List.getElem?_set_self (by simpa using h)]
  rfl

theorem getD_set_ne {α : Type} (l : List α) (i j : ℕ) (v d : α) (h : i ≠ j) :
    (l.set i v).getD j d = l.getD j d := by
  rw [List.getD_eq_getElem?_getD, List.getD_eq_getElem?_getD, List.getElem?_set_ne h]

theorem pyListSet_of_bounds {α : Type} (l : List α) (i : ℤ) (v : α)
    (h0 : 0 ≤ i) (hn : i < (l.length : ℤ)) :
    pyListSet l i v = some (l.set i.toNat v) := by
  simp [pyListSet, show ¬ i < 0 from not_lt.mpr h0, h0, hn]

theorem writeSlices_some (st : ℤ) (l : List Slice) :
    ∀ (rs : List ℚ) (ins : List ℤ),
      ins.length = rs.length →
      (∀ sl ∈ l, 0 ≤ sl.heading.fdiv st ∧ sl.heading.fdiv st < (rs.length : ℤ)) →
      ∃ rs' ins', writeSlices st l (rs, ins) = some (rs', ins')
        ∧ rs'.length = rs.length ∧ ins'.length = ins.length := by
  induction l with
  | nil =>
    intro rs ins _ _
    exact ⟨rs, ins, rfl, rfl, rfl⟩
  | cons sl rest ih =>
    intro rs ins hlen hb
    obtain ⟨hb0, hbn⟩ := hb sl (List.mem_cons_self sl rest)
    have hr := pyListSet_of_bounds rs (sl.heading.fdiv st) sl.max hb0 hbn
    have hi := pyListSet_of_bounds ins (sl.heading.fdiv st) sl.max_intensity hb0
      (by rw [hlen]; exact hbn)
    obtain ⟨rs', ins', hrec, hl1, hl2⟩ := ih (rs.set (sl.heading.fdiv st).toNat sl.max)
      (ins.set (sl.heading.fdiv st).toNat sl.max_intensity)
      (by simpa using hlen)
      (by
        intro x hx
        have := hb x (List.mem_cons_of_mem _ hx)
        simpa using this)
    refine ⟨rs', ins', ?_, by simpa using hl1, by simpa using hl2⟩
    simp only [writeSlices, hr, hi, Option.bind_some]
    exact hrec

theorem writeSlices_getD (st : ℤ) (j : ℕ) (l : List Slice) :
    ∀ (rs : List ℚ) (ins : List ℤ) (rs' : List ℚ) (ins' : List ℤ),
      ins.length = rs.length →
      (∀ sl ∈ l, 0 ≤ sl.heading.fdiv st ∧ sl.heading.fdiv st < (rs.length : ℤ)) →
      writeSlices st l (rs, ins) = some (rs', ins') →
      ((l.filter (fun sl => sl.heading.fdiv st == (j : ℤ)) = [] →
          rs'.getD j 0 = rs.getD j 0 ∧ ins'.getD j 0 = ins.getD j 0)
        ∧ ∀ w, (l.filter (fun sl => sl.heading.fdiv st == (j : ℤ))).getLast? = some w →
            rs'.getD j 0 = w.max ∧ ins'.getD j 0 = w.max_intensity) := by
  induction l with
  | nil =>
    intro rs ins rs' ins' _ _ hw
    simp only [writeSlices, Option.some_inj, Prod.mk.injEq] at hw
    obtain ⟨rfl, rfl⟩ := hw
    refine ⟨fun _ => ⟨rfl, rfl⟩, ?_⟩
    intro w hw'
    simp at hw'
  | cons sl rest ih =>
    intro rs ins rs' ins' hlen hb hw
    obtain ⟨hb0, hbn⟩ := hb sl (List.mem_cons_self sl rest)
    have hr := pyListSet_of_bounds rs (sl.heading.fdiv st) sl.max hb0 hbn
    have hi := pyListSet_of_bounds ins (sl.heading.fdiv st) sl.max_intensity hb0
      (by rw [hlen]; exact hbn)
    rw [show writeSlices st (sl :: rest) (rs, ins)
        = (pyListSet rs (sl.heading.fdiv st) sl.max).bind (fun rs1 =>
            (pyListSet ins (sl.heading.fdiv st) sl.max_intensity).bind (fun ins1 =>
              writeSlices st rest (rs1, ins1))) from rfl, hr, hi] at hw
    have hrec := ih (rs.set (sl.heading.fdiv st).toNat sl.max)
      (ins.set (sl.heading.fdiv st).toNat sl.max_intensity) rs' ins'
      (by simpa using hlen)
      (by
        intro x hx
        have := hb x (List.mem_cons_of_mem _ hx)
        simpa using this)
      hw
    by_cases hhit : sl.heading.fdiv st = (j : ℤ)
    · have htoNat : (sl.heading.fdiv st).toNat = j := by omega
      have hjlt : j < rs.length := by omega
      have hjlt' : j < ins.length := by omega
      have hfil : (sl :: rest).filter (fun x => x.heading.fdiv st == (j : ℤ))
          = sl :: rest.filter (fun x => x.heading.fdiv st == (j : ℤ)) := by
        simp [List.filter_cons, hhit]
      rw [hfil]
      constructor
      · intro hcon
        exact absurd hcon (List.cons_ne_nil _ _)
      · intro w hw'
        cases hrest : rest.filter (fun x => x.heading.fdiv st == (j : ℤ)) with
        | nil =>
          rw [hrest] at hw'
          simp only [List.getLast?_singleton, Option.some_inj] at hw'
          subst hw'
          have := (hrec.1) hrest
          rw [htoNat] at this
          rw [this.1, this.2, getD_set_eq _ _ _ _ hjlt, getD_set_eq _ _ _ _ hjlt']
          exact ⟨rfl, rfl⟩
        | cons x xs =>
          rw [hrest] at hw'
          rw [List.getLast?_cons_cons] at hw'
          exact hrec.2 w (by rw [hrest]; exact hw')
    · have htoNat : (sl.heading.fdiv st).toNat ≠ j := by omega
      have hfil : (sl :: rest).filter (fun x => x.heading.fdiv st == (j : ℤ))
          = rest.filter (fun x => x.heading.fdiv st == (j : ℤ)) := by
        simp [List.filter_cons, hhit]
      rw [hfil]
      constructor
      · intro hcon
        have := (hrec.1) hcon
        rw [this.1, this.2, getD_set_ne _ _ _ _ _ htoNat, getD_set_ne _ _ _ _ _ htoNat]
        exact ⟨rfl, rfl⟩
      · exact hrec.2

theorem mem_sortedSlices {s : Scan} {sl : Slice} (h : sl ∈ s.sortedSlices) :
    sl ∈ s.slices :=
  (List.perm_insertionSort _ s.slices).mem_iff.mp h

theorem mem_queuedOf {s : Scan} {q : ℕ} {sl : Slice}
    (h : sl ∈ queuedOf s.sortedSlices q) : sl ∈ s.slices := by
  unfold queuedOf at h
  by_cases hq : q = 0
  · rw [if_pos hq] at h
    exact mem_sortedSlices h
  · rw [if_neg hq] at h
    exact mem_sortedSlices (List.drop_subset _ _ h)

theorem fdiv_bucket_bound (h st : ℤ) (h0 : 0 < st) (hdvd : st ∣ 6400)
    (hh0 : 0 ≤ h) (hh1 : h < 6400) :
    0 ≤ h.fdiv st ∧ h.fdiv st < Int.fdiv 6400 st := by
  have e1 : h.fdiv st = h / st := Int.fdiv_eq_ediv _ h0.le
  have e2 : Int.fdiv 6400 st = 6400 / st := Int.fdiv_eq_ediv _ h0.le
  obtain ⟨n, hn⟩ := hdvd
  have hn' : (6400 : ℤ) / st = n := by
    rw [hn]
    exact Int.mul_ediv_cancel_left _ h0.ne'
  constructor
  · rw [e1]
    exact Int.ediv_nonneg hh0 h0.le
  · rw [e1, e2, hn', Int.ediv_lt_iff_lt_mul h0]
    calc h < 6400 := hh1
    _ = st * n := hn
    _ = n * st := mul_comm st n

/-- Master lemma: a `to_laser_scan` call that passes the guard, with a
positive adopted `steps` dividing 6400 and all buffered headings in
`[0, 6400)`, returns a message whose bucket arrays have length
`floor(6400/steps)`, whose untouched buckets are 0, and whose touched buckets
carry the values of the last slice (in stable timestamp-sorted selection
order) that hits them. -/
theorem to_laser_scan_ok (s : Scan) (frame : String) (queue : ℕ) (st : ℤ)
    (hst : s.steps = some st) (h0 : 0 < st) (hdvd : st ∣ 6400)
    (hh : ∀ sl ∈ s.slices, 0 ≤ sl.heading ∧ sl.heading < 6400)
    (hguard : ¬ (s.slices.length < queue ∨ s.slices.length = 0)) :
    ∃ msg : LaserScanMsg,
      (s.to_laser_scan frame queue).1 = Except.ok (some msg)
      ∧ msg.ranges.length = (Int.fdiv 6400 st).toNat
      ∧ msg.intensities.length = (Int.fdiv 6400 st).toNat
      ∧ ∀ j : ℕ,
          ((queuedOf s.sortedSlices queue).filter
              (fun sl => sl.heading.fdiv st == (j : ℤ)) = [] →
            msg.ranges.getD j 0 = 0 ∧ msg.intensities.getD j 0 = 0)
          ∧ ∀ w, ((queuedOf s.sortedSlices queue).filter
              (fun sl => sl.heading.fdiv st == (j : ℤ))).getLast? = some w →
            msg.ranges.getD j 0 = w.max ∧ msg.intensities.getD j 0 = w.max_intensity := by
  have hguard' : ¬ (s.slices.length < queue ∨ s.isEmpty = true) := by
    simpa [Scan.isEmpty] using hguard
  have hnneg : (0 : ℤ) ≤ Int.fdiv 6400 st := Int.fdiv_nonneg (by norm_num) h0.le
  have hcast : (((Int.fdiv 6400 st).toNat : ℕ) : ℤ) = Int.fdiv 6400 st := Int.toNat_of_nonneg hnneg
  have hb : ∀ sl ∈ queuedOf s.sortedSlices queue,
      0 ≤ sl.heading.fdiv st
        ∧ sl.heading.fdiv st < ((List.replicate (Int.fdiv 6400 st).toNat (0 : ℚ)).length : ℤ) := by
    intro sl hsl
    obtain ⟨hh0, hh1⟩ := hh sl (mem_queuedOf hsl)
    have := fdiv_bucket_bound sl.heading st h0 hdvd hh0 hh1
    rw [List.length_replicate, hcast]
    exact this
  obtain ⟨rs', ins', hws, hl1, hl2⟩ := writeSlices_some st (queuedOf s.sortedSlices queue)
    (List.replicate (Int.fdiv 6400 st).toNat (0 : ℚ))
    (List.replicate (Int.fdiv 6400 st).toNat (0 : ℤ))
    (by simp) hb
  have hgetD := fun (j : ℕ) => writeSlices_getD st j (queuedOf s.sortedSlices queue)
    (List.replicate (Int.fdiv 6400 st).toNat (0 : ℚ))
    (List.replicate (Int.fdiv 6400 st).toNat (0 : ℤ)) rs' ins' (by simp) hb hws
  have hstD : s.steps.getD 0 = st := by rw [hst]; rfl
  have hspec : ∃ msg : LaserScanMsg, (s.to_laser_scan frame queue).1 = Except.ok (some msg)
      ∧ msg.ranges = rs' ∧ msg.intensities = ins' := by
    unfold Scan.to_laser_scan
    rw [if_neg hguard']
    dsimp only
    rw [hstD, hws]
    exact ⟨_, rfl, rfl, rfl⟩
  obtain ⟨msg, hm1, hmr, hmi⟩ := hspec
  refine ⟨msg, hm1, ?_, ?_, ?_⟩
  · rw [hmr]
    simpa [List.length_replicate] using hl1
  · rw [hmi]
    simpa [List.length_replicate] using hl2
  · intro j
    rw [hmr, hmi]
    constructor
    · intro hemp
      have := (hgetD j).1 hemp
      simpa using this
    · intro w hw
      exact (hgetD j).2 w hw

/-! Claims C7, C8, C9. -/

theorem guard_to_laser_scan (s : Scan) (frame : String) (k : ℕ)
    (hg : s.slices.length = 0 ∨ s.slices.length < k) :
    (s.to_laser_scan frame k).1 = Except.ok none := by
  have hcond : s.slices.length < k ∨ s.isEmpty = true := by
    rcases hg with h | h
    · right
      simp [Scan.isEmpty, h]
    · left
      exact h
  unfold Scan.to_laser_scan
  rw [if_pos hcond]

/-- C7 (amended): for an aggregator with adopted `steps = st > 0` dividing
6400 and all buffered headings in `[0, 6400)`, the polar projection returns
absent (`None`) exactly when the buffer is empty or holds fewer than `k`
slices; otherwise it returns a message whose `ranges` and `intensities` both
have length `floor(6400/st)`, with buckets hit by no selected slice left at
their default 0.  Without `st ∣ 6400` the "otherwise" half fails: the call can
raise `IndexError` instead of returning a result (see the counterexample). -/
theorem c7_absent_iff (s : Scan) (frame : String) (k : ℕ) (st : ℤ)
    (hst : s.steps = some st) (h0 : 0 < st) (hdvd : st ∣ 6400)
    (hh : ∀ sl ∈ s.slices, 0 ≤ sl.heading ∧ sl.heading < 6400) :
    ((s.to_laser_scan frame k).1 = Except.ok none
        ↔ (s.slices.length = 0 ∨ s.slices.length < k))
      ∧ (¬ (s.slices.length = 0 ∨ s.slices.length < k) →
          ∃ msg : LaserScanMsg, (s.to_laser_scan frame k).1 = Except.ok (some msg)
            ∧ msg.ranges.length = (Int.fdiv 6400 st).toNat
            ∧ msg.intensities.length = (Int.fdiv 6400 st).toNat
            ∧ ∀ j : ℕ, ((queuedOf s.sortedSlices k).filter
                  (fun sl => sl.heading.fdiv st == (j : ℤ)) = [] →
                msg.ranges.getD j 0 = 0 ∧ msg.intensities.getD j 0 = 0)) := by
  have hrun : ¬ (s.slices.length = 0 ∨ s.slices.length < k) →
      ∃ msg : LaserScanMsg, (s.to_laser_scan frame k).1 = Except.ok (some msg)
        ∧ msg.ranges.length = (Int.fdiv 6400 st).toNat
        ∧ msg.intensities.length = (Int.fdiv 6400 st).toNat
        ∧ ∀ j : ℕ, ((queuedOf s.sortedSlices k).filter
              (fun sl => sl.heading.fdiv st == (j : ℤ)) = [] →
            msg.ranges.getD j 0 = 0 ∧ msg.intensities.getD j 0 = 0) := by
    intro hg
    obtain ⟨msg, hm, hr, hi, hj⟩ := to_laser_scan_ok s frame k st hst h0 hdvd hh
      (fun hc => hg hc.symm)
    exact ⟨msg, hm, hr, hi, fun j => (hj j).1⟩
  constructor
  · constructor
    · intro h
      by_contra hg
      obtain ⟨msg, hm, _⟩ := hrun hg
      rw [hm] at h
      exact Option.noConfusion (Except.ok.inj h)
    · exact guard_to_laser_scan s frame k
  · exact hrun

instance exceptDecEq {e a : Type} [DecidableEq e] [DecidableEq a] :
    DecidableEq (Except e a) := fun x y =>
  match x, y with
  | .error u, .error v =>
    if h : u = v then isTrue (by rw [h]) else isFalse (by simp [h])
  | .ok u, .ok v =>
    if h : u = v then isTrue (by rw [h]) else isFalse (by simp [h])
  | .error _, .ok _ => isFalse (by simp)
  | .ok _, .error _ => isFalse (by simp)

def slice7 : Slice := { timestamp := 0, range := 10, num_bins := 2, steps := 7, heading := 6399,
                        left_limit := 0, right_limit := 100 }

def scan7 : Scan :=
  { range := some 10, steps := some 7, num_bins := some 2, left_limit := some 0,
    right_limit := some 100, clockwise := some false, slices := [slice7], time := 0 }

/-- C7 (counterexample): a non-empty aggregator (`steps = 7`, one slice with
heading 6399, inside the spec's `[0, 6400)` heading range) passes the guard
with `k = 0`, but the projection does not return a result: the bucket index
`6399 / 7 = 914` equals the array length `floor(6400/7) = 914`, so the write
raises `IndexError` instead of producing a message with the claimed array
lengths. -/
theorem c7_cex :
    slice7.heading = 6399 ∧ (0 : ℤ) ≤ 6399 ∧ (6399 : ℤ) < 6400
      ∧ scan7.steps = some 7 ∧ scan7.slices.length = 1
      ∧ (scan7.to_laser_scan "sonar" 0).1 = Except.error () := by
  refine ⟨rfl, by decide, by decide, rfl, rfl, ?_⟩
  set_option maxRecDepth 40000 in decide

def slice7w : Slice := { timestamp := 0, range := 10, num_bins := 2, steps := 1600,
                         heading := 0, left_limit := 0, right_limit := 3200 }

def scan7w : Scan :=
  { range := some 10, steps := some 1600, num_bins := some 2, left_limit := some 0,
    right_limit := some 3200, clockwise := some false, slices := [slice7w], time := 0 }

theorem c7_absent_iff_witness :
    (scan7w.steps = some 1600 ∧ (0 : ℤ) < 1600 ∧ (1600 : ℤ) ∣ 6400
        ∧ (∀ sl ∈ scan7w.slices, 0 ≤ sl.heading ∧ sl.heading < 6400))
      ∧ (((scan7w.to_laser_scan "sonar" 0).1 = Except.ok none
            ↔ (scan7w.slices.length = 0 ∨ scan7w.slices.length < 0))
        ∧ (¬ (scan7w.slices.length = 0 ∨ scan7w.slices.length < 0) →
            ∃ msg : LaserScanMsg, (scan7w.to_laser_scan "sonar" 0).1 = Except.ok (some msg)
              ∧ msg.ranges.length = (Int.fdiv 6400 1600).toNat
              ∧ msg.intensities.length = (Int.fdiv 6400 1600).toNat
              ∧ ∀ j : ℕ, ((queuedOf scan7w.sortedSlices 0).filter
                    (fun sl => sl.heading.fdiv 1600 == (j : ℤ)) = [] →
                  msg.ranges.getD j 0 = 0 ∧ msg.intensities.getD j 0 = 0))) :=
  ⟨⟨rfl, by decide, by decide, by decide⟩,
    c7_absent_iff scan7w "sonar" 0 1600 rfl (by decide) (by decide) (by decide)⟩

/-- C8 (amended): when several selected slices land in the same bucket
`j = floor(heading/steps)`, the bucket is written last-write-wins in the order
of the stable timestamp-ascending sort of the selection — so the winner is the
slice latest by timestamp (with buffer insertion order breaking timestamp ties
only), not the slice latest by insertion: the bucket receives the
`chosen_range`/`chosen_intensity` of the last slice, in sorted order, that
hits it. -/
theorem c8_last_write_wins (s : Scan) (frame : String) (queue : ℕ) (st : ℤ)
    (hst : s.steps = some st) (h0 : 0 < st) (hdvd : st ∣ 6400)
    (hh : ∀ sl ∈ s.slices, 0 ≤ sl.heading ∧ sl.heading < 6400)
    (hguard : ¬ (s.slices.length < queue ∨ s.slices.length = 0))
    (j : ℕ) (w : Slice)
    (hw : ((queuedOf s.sortedSlices queue).filter
        (fun sl => sl.heading.fdiv st == (j : ℤ))).getLast? = some w) :
    ∃ msg : LaserScanMsg, (s.to_laser_scan frame queue).1 = Except.ok (some msg)
      ∧ msg.ranges.getD j 0 = w.max
      ∧ msg.intensities.getD j 0 = w.max_intensity := by
  obtain ⟨msg, hm, _, _, hj⟩ := to_laser_scan_ok s frame queue st hst h0 hdvd hh hguard
  obtain ⟨h1, h2⟩ := (hj j).2 w hw
  exact ⟨msg, hm, h1, h2⟩

def sliceA8 : Slice := { timestamp := 2, range := 10, num_bins := 2, steps := 1600, heading := 0,
                         left_limit := 0, right_limit := 3200, max := 5, max_intensity := 7 }

def sliceB8 : Slice := { timestamp := 1, range := 10, num_bins := 2, steps := 1600, heading := 0,
                         left_limit := 0, right_limit := 3200, max := 9, max_intensity := 8 }

def scan8 : Scan :=
  { range := some 10, steps := some 1600, num_bins := some 2, left_limit := some 0,
    right_limit := some 3200, clockwise := some false, slices := [sliceA8, sliceB8], time := 0 }

/-- C8 (counterexample): buffer `[A, B]` in insertion order, both hitting
bucket 0, with `A.timestamp = 2 > B.timestamp = 1`.  The claim says the latest
inserted slice (`B`, `chosen_range = 9`) supplies the bucket; the code sorts
by timestamp first, writes `B` then `A`, and the bucket ends with `A`'s
values (`chosen_range = 5`). -/
theorem c8_cex :
    (scan8.to_laser_scan "sonar" 0).1.map (fun o => o.map LaserScanMsg.ranges)
        = Except.ok (some [sliceA8.max, 0, 0, 0])
      ∧ scan8.slices.getLast? = some sliceB8
      ∧ sliceA8.heading.fdiv 1600 = 0 ∧ sliceB8.heading.fdiv 1600 = 0
      ∧ sliceA8.max = 5 ∧ sliceB8.max = 9 ∧ sliceA8.max ≠ sliceB8.max := by
  refine ⟨?_, by decide, by decide, by decide, by decide, by decide, by decide⟩
  decide

theorem c8_last_write_wins_witness :
    (scan8.steps = some 1600 ∧ (0 : ℤ) < 1600 ∧ (1600 : ℤ) ∣ 6400
        ∧ (∀ sl ∈ scan8.slices, 0 ≤ sl.heading ∧ sl.heading < 6400)
        ∧ ¬ (scan8.slices.length < 0 ∨ scan8.slices.length = 0)
        ∧ ((queuedOf scan8.sortedSlices 0).filter
            (fun sl => sl.heading.fdiv 1600 == ((0 : ℕ) : ℤ))).getLast? = some sliceA8)
      ∧ ∃ msg : LaserScanMsg, (scan8.to_laser_scan "sonar" 0).1 = Except.ok (some msg)
          ∧ msg.ranges.getD 0 0 = sliceA8.max
          ∧ msg.intensities.getD 0 0 = sliceA8.max_intensity :=
  ⟨⟨rfl, by decide, by decide, by decide, by decide, by decide⟩,
    c8_last_write_wins scan8 "sonar" 0 1600 rfl (by decide) (by decide) (by decide)
      (by decide) 0 sliceA8 (by decide)⟩

/-- C9 (amended): with adopted `steps = st > 0` that divides 6400 and every
buffered heading in `[0, 6400)`, the bucket index `floor(heading/st)` of every
selected slice lands inside the bucket array of length `floor(6400/st)`, so
the projection never raises `IndexError`.  Divisibility is necessary: see the
counterexample, where `st = 7` and heading 6399 index exactly one past the
end. -/
theorem c9_no_index_error (s : Scan) (frame : String) (queue : ℕ) (st : ℤ)
    (hst : s.steps = some st) (h0 : 0 < st) (hdvd : st ∣ 6400)
    (hh : ∀ sl ∈ s.slices, 0 ≤ sl.heading ∧ sl.heading < 6400) :
    (s.to_laser_scan frame queue).1 ≠ Except.error () := by
  by_cases hg : s.slices.length = 0 ∨ s.slices.length < queue
  · rw [guard_to_laser_scan s frame queue hg]
    intro h
    cases h
  · obtain ⟨msg, hm, _⟩ := to_laser_scan_ok s frame queue st hst h0 hdvd hh
      (fun hc => hg hc.symm)
    rw [hm]
    intro h
    cases h

def slice9 : Slice := { timestamp := 0, range := 10, num_bins := 2, steps := 7, heading := 6399,
                        left_limit := 0, right_limit := 100 }

def scan9 : Scan :=
  { range := some 10, steps := some 7, num_bins := some 2, left_limit := some 0,
    right_limit := some 100, clockwise := some false, slices := [slice9], time := 0 }

/-- C9 (counterexample): heading 6399 satisfies `0 ≤ heading < 6400` and
`steps = 7 > 0`, yet the bucket index `6399 / 7 = 914` does not fall within
the bucket array of length `floor(6400/7) = 914`: the write is out of bounds
and the projection raises `IndexError`. -/
theorem c9_cex :
    slice9.heading = 6399 ∧ slice9.steps = 7 ∧ (0 : ℤ) ≤ 6399 ∧ (6399 : ℤ) < 6400
      ∧ Int.fdiv 6399 7 = 914 ∧ Int.fdiv 6400 7 = 914
      ∧ (scan9.to_laser_scan "sonar" 0).1 = Except.error () := by
  refine ⟨rfl, rfl, by decide, by decide, by decide, by decide, ?_⟩
  set_option maxRecDepth 40000 in decide

def slice9w : Slice := { timestamp := 0, range := 10, num_bins := 2, steps := 1600,
                         heading := 0, left_limit := 0, right_limit := 3200 }

def scan9w : Scan :=
  { range := some 10, steps := some 1600, num_bins := some 2, left_limit := some 0,
    right_limit := some 3200, clockwise := some false, slices := [slice9w], time := 0 }

theorem c9_no_index_error_witness :
    (scan9w.steps = some 1600 ∧ (0 : ℤ) < 1600 ∧ (1600 : ℤ) ∣ 6400
        ∧ (∀ sl ∈ scan9w.slices, 0 ≤ sl.heading ∧ sl.heading < 6400))
      ∧ (scan9w.to_laser_scan "sonar" 0).1 ≠ Except.error () :=
  ⟨⟨rfl, by decide, by decide, by decide⟩,
    c9_no_index_error scan9w "sonar" 0 1600 rfl (by decide) (by decide) (by decide)⟩

/-! Claim C6: the buffer-size bound over reachable aggregator states. -/

/-- C6 (amended): in every aggregator state reachable from the empty initial
state by `add` calls, whenever a shape is adopted (`steps = some st`) and the
rotation bound `floor(max_range/st)` is at least 1, the buffer size never
exceeds that bound.  (The bound can fail when `floor(max_range/st) = 0`, e.g.
a degenerate sector with `left_limit = right_limit`: see the counterexample —
there the buffer in fact grows without limit.)  While no shape is adopted the
buffer is empty. -/
theorem c6_buffer_bound (s : Scan) (h : Reachable s) :
    (s.steps = none → s.slices = [])
      ∧ ∀ st : ℤ, s.steps = some st → 1 ≤ s.max_range.fdiv st →
          (s.slices.length : ℤ) ≤ s.max_range.fdiv st := by
  induction h with
  | init t =>
    refine ⟨fun _ => rfl, ?_⟩
    intro st hst hb
    simp [Scan.init, Scan.max_range]
  | step sl hs ih =>
    rename_i s
    by_cases hc : some sl.range ≠ s.range ∨ some sl.num_bins ≠ s.num_bins
        ∨ some sl.steps ≠ s.steps ∨ some sl.left_limit ≠ s.left_limit
        ∨ some sl.right_limit ≠ s.right_limit ∨ some sl.clockwise ≠ s.clockwise
    · have heq : s.add sl
          = { s with
              range := some sl.range, num_bins := some sl.num_bins,
              steps := some sl.steps, left_limit := some sl.left_limit,
              right_limit := some sl.right_limit, clockwise := some sl.clockwise,
              slices := [sl] } := by
        unfold Scan.add
        rw [if_pos hc]
      rw [heq]
      refine ⟨fun habs => by simp at habs, ?_⟩
      intro st hst hb
      simpa using hb
    · have heq : s.add sl
          = { s with slices := (if s.full then s.slices.tail else s.slices) ++ [sl] } := by
        unfold Scan.add
        rw [if_neg hc]
      push_neg at hc
      obtain ⟨-, -, hsteps, -, -, -⟩ := hc
      rw [heq]
      have hmr : Scan.max_range { s with
          slices := (if s.full then s.slices.tail else s.slices) ++ [sl] } = s.max_range := rfl
      refine ⟨fun habs => by rw [← hsteps] at habs; simp at habs, ?_⟩
      intro st hst hb
      have hst' : s.steps = some st := hst
      rw [hmr] at hb ⊢
      cases hfull : s.full with
      | true =>
        have hlen : (s.slices.length : ℤ) = s.max_range.fdiv st := by
          unfold Scan.full at hfull
          rw [hst'] at hfull
          simpa using hfull
        have hpos : s.slices ≠ [] := by
          intro hnil
          rw [hnil] at hlen
          simp at hlen
          omega
        have hlp : 0 < s.slices.length := List.length_pos.mpr hpos
        rw [if_pos (rfl : (true : Bool) = true)]
        simp only [List.length_append, List.length_tail, List.length_cons, List.length_nil]
        push_cast
        omega
      | false =>
        have hne : (s.slices.length : ℤ) ≠ s.max_range.fdiv st := by
          unfold Scan.full at hfull
          rw [hst'] at hfull
          simpa using hfull
        have hle : (s.slices.length : ℤ) ≤ s.max_range.fdiv st := ih.2 st hst' hb
        rw [if_neg (by simp : ¬ ((false : Bool) = true))]
        simp only [List.length_append, List.length_cons, List.length_nil]
        push_cast
        omega

def slice6 : Slice := { range := 10, num_bins := 2, steps := 16, heading := 0,
                        left_limit := 100, right_limit := 100 }

/-- C6 (counterexample): one `add` from the initial state, with a degenerate
sector `left_limit = right_limit = 100` and `steps = 16`.  Then
`max_range = (100 - 100) mod 6400 = 0`, the rotation bound
`floor(max_range/steps)` is 0, but the buffer holds 1 slice — exceeding the
bound the claim asserts for every reachable state. -/
theorem c6_cex :
    Reachable ((Scan.init 0).add slice6)
      ∧ ((Scan.init 0).add slice6).steps = some 16
      ∧ ¬ ((((Scan.init 0).add slice6).slices.length : ℤ)
          ≤ ((Scan.init 0).add slice6).max_range.fdiv 16) := by
  refine ⟨Reachable.step slice6 (Reachable.init 0), by decide, by decide⟩

def slice6w : Slice := { range := 10, num_bins := 2, steps := 16, heading := 0,
                         left_limit := 0, right_limit := 32 }

theorem c6_buffer_bound_witness :
    Reachable ((Scan.init 0).add slice6w)
      ∧ ((Scan.init 0).add slice6w).steps = some 16
      ∧ (1 : ℤ) ≤ ((Scan.init 0).add slice6w).max_range.fdiv 16
      ∧ ((((Scan.init 0).add slice6w).slices.length : ℤ)
          ≤ ((Scan.init 0).add slice6w).max_range.fdiv 16) := by
  have hr : Reachable ((Scan.init 0).add slice6w) := Reachable.step slice6w (Reachable.init 0)
  exact ⟨hr, by decide, by decide, (c6_buffer_bound _ hr).2 16 (by decide) (by decide)⟩
